import Mathlib

/-
Verification of the media-poster-script evaluation harness.

Shallow embedding of the core of the repository:
  scripts/connections.py    (StdioConnection: process lifecycle, line protocol)
  scripts/tool_caller.py    (ToolCaller: process-backed tool invocation)
  scripts/evaluation.py     (extract_xml_content, agent_loop, evaluate_single_task,
                             run_evaluation aggregates)
  scripts/server_runner.py  (ServerRunner: process spawn/stop, same env merge)

JSON values are modelled by an inductive type; Python dictionaries parsed from
JSON become association lists (with last-binding-wins lookup, matching the
behaviour of json.loads on duplicate keys).  Machine floats used only as wall
clock durations are modelled as rationals.  Child processes are modelled as
explicit state with an event trace for spawn and termination actions.
-/

/-- A JSON value as produced by json.loads.  Numbers are modelled as integers
(the harness only transports them opaquely). -/
inductive Json where
  | null
  | bool (b : Bool)
  | num (n : Int)
  | str (s : String)
  | arr (elems : List Json)
  | obj (fields : List (String × Json))

/-- Lookup of a key in a parsed JSON object.  json.loads keeps the last binding
when a key is repeated, so the lookup prefers later bindings. -/
def objLookup (fields : List (String × Json)) (k : String) : Option Json :=
  match fields with
  | [] => none
  | p :: rest =>
    match objLookup rest k with
    | some v => some v
    | none => if p.1 = k then some p.2 else none

/-- The value of key "error" when the reply is a JSON mapping that contains it
(the test performed by StdioConnection.call_tool before returning). -/
def errorKeyOf (reply : Json) : Option Json :=
  match reply with
  | Json.obj fields => objLookup fields "error"
  | _ => none

/-- Failure of a process-backed call_tool. -/
inductive CallFailure where
  | notRunning
  | toolError (v : Json)

/-- StdioConnection.call_tool (connections.py), reply processing: the parsed
response line is inspected; a mapping containing key "error" raises
RuntimeError with that key's value, any other parsed value is returned
verbatim.  ScriptBasedToolCaller.call_tool in evaluation.py has the identical
check. -/
def stdio_call_tool_reply (reply : Json) : Except CallFailure Json :=
  match reply with
  | Json.obj fields =>
    match objLookup fields "error" with
    | some v => Except.error (CallFailure.toolError v)
    | none => Except.ok (Json.obj fields)
  | other => Except.ok other

/-- ToolCaller.call_tool (tool_caller.py): raises RuntimeError when the server
process was never started, and otherwise returns json.loads of the response
line directly, with no inspection of the parsed value. -/
def tool_caller_call_tool (running : Bool) (reply : Json) : Except CallFailure Json :=
  if running then Except.ok reply else Except.error CallFailure.notRunning

/-- Does the pattern occur as a prefix of the text?  (Helper for the literal
substring search performed by the regex used in extract_xml_content.) -/
def listStartsWith (pat text : List Char) : Bool :=
  match pat, text with
  | [], _ => true
  | _ :: _, [] => false
  | p :: ps, c :: cs => p == c && listStartsWith ps cs

/-- Split the text at the first occurrence of the pattern: returns the part
before the occurrence and the part after it, or none when the pattern does not
occur. -/
def splitFirst (pat : List Char) : List Char → Option (List Char × List Char)
  | [] => if listStartsWith pat [] then some ([], []) else none
  | c :: rest =>
    if listStartsWith pat (c :: rest) then some ([], (c :: rest).drop pat.length)
    else
      match splitFirst pat rest with
      | some (b, a) => some (c :: b, a)
      | none => none

/-- The characters of the literal opening delimiter written into the regex
pattern of extract_xml_content. -/
def openTagChars (tag : String) : List Char :=
  '<' :: (tag.data ++ ['>'])

/-- The characters of the literal closing delimiter written into the regex
pattern of extract_xml_content. -/
def closeTagChars (tag : String) : List Char :=
  '<' :: ('/' :: (tag.data ++ ['>']))

/-- One scan step of re.findall applied to the lazy pattern of
extract_xml_content with re.DOTALL, with explicit fuel: matches are found left
to right and without overlap, and each capture is the shortest stretch between
an opening delimiter and the next closing delimiter.  Every step strictly
shortens the remaining text, so fuel equal to the text length is always
sufficient (proved below as tagMatches_eq). -/
def tagMatchesFuel (tag : String) : Nat → List Char → List (List Char)
  | 0, _ => []
  | fuel + 1, text =>
    match splitFirst (openTagChars tag) text with
    | none => []
    | some p1 =>
      match splitFirst (closeTagChars tag) p1.2 with
      | none => []
      | some p2 => p2.1 :: tagMatchesFuel tag fuel p2.2

/-- The list of captured groups of re.findall over the text for the lazy
pattern of extract_xml_content. -/
def tagMatches (tag : String) (text : List Char) : List (List Char) :=
  tagMatchesFuel tag text.length text

/-- Python str.isspace on the ASCII whitespace characters stripped by
str.strip (unicode whitespace beyond these is not used by the harness). -/
def pyIsSpace (c : Char) : Bool :=
  c = ' ' || c = '\t' || c = '\n' || c = '\r' || c = '\x0b' || c = '\x0c'

/-- Python str.strip(): remove whitespace from both ends. -/
def pyStrip (s : List Char) : List Char :=
  ((s.dropWhile pyIsSpace).reverse.dropWhile pyIsSpace).reverse

/-- extract_xml_content (evaluation.py): findall of the lazy tag pattern with
re.DOTALL over the text; the last match stripped of outer whitespace when at
least one match exists, None otherwise. -/
def extract_xml_content (text : String) (tag : String) : Option String :=
  (tagMatches tag text.data).getLast?.map (fun m => String.mk (pyStrip m))

/-- The score computed by evaluate_single_task (evaluation.py):
int(response_value == expected) if response_value else 0, where
response_value is extract_xml_content of the final text at tag "response". -/
def task_score (finalText expected : String) : Nat :=
  match extract_xml_content finalText "response" with
  | none => 0
  | some v => if v = "" then 0 else if v = expected then 1 else 0

/-- A live child process handle as created by subprocess.Popen: the argv it
was spawned with, the environment passed to it, and whether it has exited
(poll() returning a value). -/
structure ProcHandle where
  argv : List String
  env : String → Option String
  exited : Bool

/-- Lookup in the configured environment overrides (a Python dict of strings,
so keys are unique and first match suffices). -/
def envLookup (ov : List (String × String)) (k : String) : Option String :=
  match ov with
  | [] => none
  | p :: rest => if p.1 = k then some p.2 else envLookup rest k

/-- os.environ.copy() followed by env.update(overrides): the override wins on
key collision, any other key keeps its value from the parent environment. -/
def mergeEnv (base : String → Option String) (ov : List (String × String)) :
    String → Option String :=
  fun k =>
    match envLookup ov k with
    | some v => some v
    | none => base k

/-- The mutable state of a StdioConnection (connections.py): its configured
command, arguments and environment overrides, and the current child process
handle if any. -/
structure StdioConnectionState where
  command : String
  args : List String
  env : List (String × String)
  proc : Option ProcHandle

/-- The observable effect of a subprocess.Popen call: the argv and environment
it was invoked with. -/
structure SpawnEvent where
  argv : List String
  env : String → Option String

/-- StdioConnection._ensure_running (connections.py): when there is no process
or the previous one has exited, spawn a fresh process with
argv = [command] + args and the parent environment updated with the configured
overrides; otherwise do nothing.  The returned event records the Popen call
when one happened. -/
def ensure_running (osEnv : String → Option String) (c : StdioConnectionState) :
    StdioConnectionState × Option SpawnEvent :=
  match c.proc with
  | some p =>
    if p.exited then
      let e := mergeEnv osEnv c.env
      ({ c with proc := some ⟨c.command :: c.args, e, false⟩ },
        some ⟨c.command :: c.args, e⟩)
    else (c, none)
  | none =>
    let e := mergeEnv osEnv c.env
    ({ c with proc := some ⟨c.command :: c.args, e, false⟩ },
      some ⟨c.command :: c.args, e⟩)

/-- Number of live child processes held by a connection. -/
def liveProcs (c : StdioConnectionState) : Nat :=
  match c.proc with
  | some p => if p.exited then 0 else 1
  | none => 0

/-- Does the connection hold a live (started and not exited) child process? -/
def hasLiveProc (c : StdioConnectionState) : Bool :=
  match c.proc with
  | some p => !p.exited
  | none => false

/-- Termination actions performed on a child process by stop(). -/
inductive TermAction where
  | terminate
  | waitGrace
  | kill
  | waitFinal

/-- StdioConnection.stop (connections.py) and the verbatim-identical
ToolCaller.stop (tool_caller.py): when a live process exists, terminate() then
wait(timeout=5); when the wait times out (the child does not exit gracefully
within the grace period, modelled by the graceful flag), kill() then wait().
In every case the process handle is dropped afterwards.  The returned list
records the termination actions in order. -/
def stopChannel (graceful : Bool) (c : StdioConnectionState) :
    StdioConnectionState × List TermAction :=
  match c.proc with
  | none => ({ c with proc := none }, [])
  | some p =>
    if p.exited then ({ c with proc := none }, [])
    else if graceful then
      ({ c with proc := none }, [TermAction.terminate, TermAction.waitGrace])
    else
      ({ c with proc := none },
        [TermAction.terminate, TermAction.waitGrace, TermAction.kill, TermAction.waitFinal])

/-- StdioConnection.call_tool (connections.py), full path: first
_ensure_running, then the request is written to the (now live) child and one
response line is read and parsed; the reply parameter is the JSON value the
child answers with.  Returns the post-call connection state, the spawn event
if a process had to be started, and the processed reply. -/
def stdio_call_tool (osEnv : String → Option String) (c : StdioConnectionState)
    (reply : Json) : StdioConnectionState × Option SpawnEvent × Except CallFailure Json :=
  let r := ensure_running osEnv c
  (r.1, r.2, stdio_call_tool_reply reply)

/-- StdioConnection.list_tools (connections.py), full path: first
_ensure_running, then one request/response exchange; the parsed reply is
returned with no further inspection. -/
def stdio_list_tools (osEnv : String → Option String) (c : StdioConnectionState)
    (reply : Json) : StdioConnectionState × Option SpawnEvent × Json :=
  let r := ensure_running osEnv c
  (r.1, r.2, reply)

/-- A content block of an engine response or of a conversation message. -/
inductive ContentBlock where
  | text (t : String)
  | toolUse (id : String) (name : String) (input : Json)
  | toolResult (toolUseId : String) (content : String)

/-- The content of a conversation message: either a plain string (the initial
user question) or a list of blocks. -/
inductive MessageContent where
  | ofString (s : String)
  | ofBlocks (bs : List ContentBlock)

/-- One conversation message. -/
structure Message where
  role : String
  content : MessageContent

/-- One reasoning-engine response: its stop reason and content blocks. -/
structure EngineResponse where
  stopReason : String
  content : List ContentBlock

/-- The generator expression next(block for block in response.content if
block.type == "tool_use") of agent_loop: the first tool_use block in content
order, if any. -/
def firstToolUse : List ContentBlock → Option (String × String × Json)
  | [] => none
  | b :: rest =>
    match b with
    | ContentBlock.toolUse i n inp => some (i, n, inp)
    | _ => firstToolUse rest

/-- Is this block a tool_use block (the filter of the generator expression)? -/
def ContentBlock.isToolUse : ContentBlock → Bool
  | ContentBlock.toolUse _ _ _ => true
  | _ => false

/-- next((block.text for block in response.content if hasattr(block, "text")),
None) of agent_loop: the text of the first text block, if any. -/
def extractFinalText : List ContentBlock → Option String
  | [] => none
  | b :: rest =>
    match b with
    | ContentBlock.text t => some t
    | _ => extractFinalText rest

mutual

/-- json.dumps with the default separators.  String escaping is the identity
here: the harness never inspects the serialized text, it only feeds it back to
the engine. -/
def jsonDumps : Json → String
  | Json.null => "null"
  | Json.bool true => "true"
  | Json.bool false => "false"
  | Json.num n => toString n
  | Json.str s => "\"" ++ s ++ "\""
  | Json.arr es => "[" ++ jsonDumpsArr es ++ "]"
  | Json.obj fs => "\x7b" ++ jsonDumpsObj fs ++ "\x7d"

/-- Comma-separated serialization of array elements. -/
def jsonDumpsArr : List Json → String
  | [] => ""
  | [e] => jsonDumps e
  | e :: rest => jsonDumps e ++ ", " ++ jsonDumpsArr rest

/-- Comma-separated serialization of object fields. -/
def jsonDumpsObj : List (String × Json) → String
  | [] => ""
  | [p] => "\"" ++ p.1 ++ "\": " ++ jsonDumps p.2
  | p :: rest => "\"" ++ p.1 ++ "\": " ++ jsonDumps p.2 ++ ", " ++ jsonDumpsObj rest

end

/-- Python str() of a parsed JSON value, as applied by agent_loop to tool
results that are not dicts or lists. -/
def pyStr : Json → String
  | Json.null => "None"
  | Json.bool true => "True"
  | Json.bool false => "False"
  | Json.num n => toString n
  | Json.str s => s
  | Json.arr es => jsonDumps (Json.arr es)
  | Json.obj fs => jsonDumps (Json.obj fs)

/-- agent_loop serialization of a successful tool result:
json.dumps(tool_result) if isinstance(tool_result, (dict, list)) else
str(tool_result). -/
def serializeToolResult : Json → String
  | Json.obj fs => jsonDumps (Json.obj fs)
  | Json.arr es => jsonDumps (Json.arr es)
  | other => pyStr other

/-- The failure text agent_loop folds into the conversation when a tool
invocation raises: the message of the exception followed by
traceback.format_exc() (the traceback text is an opaque parameter here). -/
def errText (name msg tb : String) : String :=
  "Error executing tool " ++ name ++ ": " ++ msg ++ "\n" ++ tb

/-- The tool-result content string produced by one iteration of agent_loop:
the serialized success value, or the failure text when the caller raised. -/
def toolResponseString (call : String → Json → Except String Json)
    (tb name : String) (input : Json) : String :=
  match call name input with
  | Except.ok v => serializeToolResult v
  | Except.error e => errText name e tb

/-- Per-tool metrics entry accumulated by agent_loop. -/
structure MetricEntry where
  count : Nat
  durations : List ℚ

/-- The tool_metrics dictionary of agent_loop, keyed by tool name in first-use
order. -/
abbrev Metrics := List (String × MetricEntry)

/-- The metrics update of one agent_loop iteration: create the entry if the
tool was not seen before, then increment its count and append the measured
duration.  Runs on every iteration, also when the tool invocation failed. -/
def updateMetrics (m : Metrics) (name : String) (d : ℚ) : Metrics :=
  if m.any (fun p => p.1 = name) then
    m.map (fun p =>
      if p.1 = name then (p.1, ⟨p.2.count + 1, p.2.durations ++ [d]⟩) else p)
  else m ++ [(name, ⟨1, [d]⟩)]

/-- num_tool_calls as computed by evaluate_single_task:
sum(len(metrics durations) for each tool). -/
def numToolCalls (m : Metrics) : Nat :=
  (m.map (fun p => p.2.durations.length)).sum

/-- The sum of the per-tool counts of a metrics dictionary. -/
def sumCounts (m : Metrics) : Nat :=
  (m.map (fun p => p.2.count)).sum

/-- The tool-result message appended by agent_loop: role user, a single
tool_result block correlated to the tool_use id. -/
def toolResultMessage (id content : String) : Message :=
  ⟨"user", MessageContent.ofBlocks [ContentBlock.toolResult id content]⟩

/-- The assistant message recording an engine response's content. -/
def assistantMessage (bs : List ContentBlock) : Message :=
  ⟨"assistant", MessageContent.ofBlocks bs⟩

/-- The in-flight state of one agent_loop run: the conversation so far, the
metrics so far, and the stream of wall-clock durations the surrounding
time.time() calls will measure for the successive tool invocations. -/
structure LoopState where
  messages : List Message
  metrics : Metrics
  durs : List ℚ

/-- The outcome of agent_loop: the engine produced a final (non tool_use)
response, or the scripted engine ran out of responses while tools were still
being requested, or a response claimed stop reason tool_use without containing
a tool_use block (the StopIteration case of the Python generator, fatal). -/
inductive AgentResult where
  | finished (responseText : Option String) (messages : List Message) (metrics : Metrics)
  | outOfScript (messages : List Message) (metrics : Metrics)
  | malformed (messages : List Message) (metrics : Metrics)

/-- The metrics carried by an agent_loop outcome. -/
def AgentResult.metricsOf : AgentResult → Metrics
  | AgentResult.finished _ _ m => m
  | AgentResult.outOfScript _ m => m
  | AgentResult.malformed _ m => m

/-- Which terminal case an agent_loop outcome is, forgetting all data. -/
def AgentResult.kind : AgentResult → Nat
  | AgentResult.finished _ _ _ => 0
  | AgentResult.outOfScript _ _ => 1
  | AgentResult.malformed _ _ => 2

/-- The while loop of agent_loop (evaluation.py): given the current engine
response and the remaining scripted engine responses, repeat while the stop
reason is "tool_use": take the first tool_use block, invoke the tool (a failure
is caught and turned into the failure text), record duration and count,
append the correlated tool-result message, obtain the next engine response and
append it as an assistant message.  When the stop reason is anything else,
return the first text block's text and the accumulated metrics. -/
def agentLoop (call : String → Json → Except String Json) (tb : String) :
    EngineResponse → List EngineResponse → LoopState → AgentResult
  | resp, script, st =>
    if resp.stopReason = "tool_use" then
      match firstToolUse resp.content with
      | none => AgentResult.malformed st.messages st.metrics
      | some (id, name, input) =>
        let content := toolResponseString call tb name input
        let msgs := st.messages ++ [toolResultMessage id content]
        let mets := updateMetrics st.metrics name (st.durs.headD 0)
        match script with
        | [] => AgentResult.outOfScript msgs mets
        | r :: rs =>
          agentLoop call tb r rs ⟨msgs ++ [assistantMessage r.content], mets, st.durs.tail⟩
    else
      AgentResult.finished (extractFinalText resp.content) st.messages st.metrics

/-- agent_loop (evaluation.py) end to end over a scripted engine: the
conversation is seeded with the user question, the first engine response is
obtained and appended, then the while loop runs. -/
def agent_loop (call : String → Json → Except String Json) (tb : String)
    (question : String) (script : List EngineResponse) (durs : List ℚ) : AgentResult :=
  match script with
  | [] => AgentResult.outOfScript [⟨"user", MessageContent.ofString question⟩] []
  | r :: rs =>
    agentLoop call tb r rs
      ⟨[⟨"user", MessageContent.ofString question⟩, assistantMessage r.content], [], durs⟩

/-- The per-task numbers evaluate_single_task records that run_evaluation
aggregates. -/
structure TaskStats where
  score : Nat
  duration : ℚ
  calls : Nat

/-- run_evaluation (evaluation.py): accuracy = (correct / len(results)) * 100
if results else 0. -/
def run_accuracy (rs : List TaskStats) : ℚ :=
  if rs.isEmpty then 0
  else ((rs.map (fun r => (r.score : ℚ))).sum / (rs.length : ℚ)) * 100

/-- run_evaluation: average_duration_s = sum(durations) / len(results)
if results else 0. -/
def run_avg_duration (rs : List TaskStats) : ℚ :=
  if rs.isEmpty then 0
  else (rs.map (fun r => r.duration)).sum / (rs.length : ℚ)

/-- run_evaluation: average_tool_calls = sum(num_tool_calls) / len(results)
if results else 0. -/
def run_avg_tool_calls (rs : List TaskStats) : ℚ :=
  if rs.isEmpty then 0
  else ((rs.map (fun r => (r.calls : ℚ))).sum / (rs.length : ℚ))

/-- run_evaluation: total_tool_calls = sum(num_tool_calls). -/
def run_total_tool_calls (rs : List TaskStats) : Nat :=
  (rs.map (fun r => r.calls)).sum

/-- Well-formedness of the metrics dictionary: keys are unique (it models a
Python dict) and every entry's count equals the length of its durations list
and is at least one. -/
def metricsWF (m : Metrics) : Prop :=
  (m.map (fun p => p.1)).Nodup ∧
    ∀ p ∈ m, p.2.count = p.2.durations.length ∧ 1 ≤ p.2.count

/-- C1 counterexample: against a process reply that is a mapping with key
"error" (value "bad args"), ToolCaller.call_tool of tool_caller.py — a
process-backed backend — returns the parsed mapping verbatim instead of
failing, while StdioConnection.call_tool fails with that value.  So the claim
that the error reply makes callTool fail on every process-backed backend is
false. -/
theorem tool_caller_error_reply_counterexample :
    tool_caller_call_tool true (Json.obj [("error", Json.str "bad args")]) =
        Except.ok (Json.obj [("error", Json.str "bad args")]) ∧
    errorKeyOf (Json.obj [("error", Json.str "bad args")]) = some (Json.str "bad args") ∧
    stdio_call_tool_reply (Json.obj [("error", Json.str "bad args")]) =
        Except.error (CallFailure.toolError (Json.str "bad args")) :=
  ⟨rfl, rfl, rfl⟩

/-- C1 (amended): when the child's reply to a call is a mapping containing key
"error", StdioConnection.call_tool fails with that key's value; any reply
without an error key is returned verbatim; and ToolCaller.call_tool returns
every parsed reply verbatim, error mappings included. -/
theorem call_tool_error_reply_semantics :
    (∀ fields v, objLookup fields "error" = some v →
        stdio_call_tool_reply (Json.obj fields) =
          Except.error (CallFailure.toolError v)) ∧
    (∀ reply, errorKeyOf reply = none → stdio_call_tool_reply reply = Except.ok reply) ∧
    (∀ reply, tool_caller_call_tool true reply = Except.ok reply) := by
  refine ⟨?_, ?_, ?_⟩
  · intro fields v h
    simp [stdio_call_tool_reply, h]
  · intro reply h
    cases reply with
    | obj fs =>
      simp only [errorKeyOf] at h
      simp [stdio_call_tool_reply, h]
    | null => rfl
    | bool b => rfl
    | num n => rfl
    | str s => rfl
    | arr es => rfl
  · intro reply
    rfl

/-- Witness for C1 (amended) at concrete replies. -/
theorem call_tool_error_reply_semantics_witness :
    stdio_call_tool_reply (Json.obj [("error", Json.str "boom")]) =
        Except.error (CallFailure.toolError (Json.str "boom")) ∧
    stdio_call_tool_reply (Json.num 7) = Except.ok (Json.num 7) :=
  ⟨call_tool_error_reply_semantics.1 [("error", Json.str "boom")] (Json.str "boom") rfl,
   call_tool_error_reply_semantics.2.1 (Json.num 7) rfl⟩

/-- C2: the score of evaluate_single_task is 1 exactly when the extracted
response (already stripped of outer whitespace by extract_xml_content) exists,
is non-empty, and equals the expected answer; in every other case, including
when extraction yields nothing, it is 0. -/
theorem task_score_one_iff (text expected : String) :
    (task_score text expected = 1 ↔
        (extract_xml_content text "response" = some expected ∧ expected ≠ "")) ∧
    (task_score text expected = 0 ∨ task_score text expected = 1) := by
  cases h : extract_xml_content text "response" with
  | none =>
    have hts : task_score text expected = 0 := by
      unfold task_score
      rw [h]
    rw [hts]
    simp
  | some v =>
    have hts : task_score text expected =
        if v = "" then 0 else if v = expected then 1 else 0 := by
      unfold task_score
      rw [h]
    rw [hts]
    by_cases hv : v = ""
    · subst hv
      rw [if_pos rfl]
      refine ⟨?_, Or.inl rfl⟩
      constructor
      · intro h01
        exact absurd h01 (by decide)
      · rintro ⟨he, hne⟩
        cases he
        exact absurd rfl hne
    · rw [if_neg hv]
      by_cases he : v = expected
      · subst he
        rw [if_pos rfl]
        exact ⟨by simp [hv], Or.inr rfl⟩
      · rw [if_neg he]
        refine ⟨?_, Or.inl rfl⟩
        constructor
        · intro h01
          exact absurd h01 (by decide)
        · rintro ⟨hsome, _⟩
          cases hsome
          exact absurd rfl he

/-- Witness for C2 at a concrete extracted response equal to the expected
answer. -/
theorem task_score_one_iff_witness :
    task_score "<response> 42 </response>" "42" = 1 :=
  (task_score_one_iff "<response> 42 </response>" "42").1.mpr
    ⟨by decide, by decide⟩

/-- C6: for a non-empty result list the reported accuracy is
100 times correct over total, and on an empty result list the accuracy and the
two averages are 0 with no division performed. -/
theorem run_aggregates_zero_and_formula :
    (∀ rs : List TaskStats, rs ≠ [] →
        run_accuracy rs =
          100 * (rs.map (fun r => (r.score : ℚ))).sum / (rs.length : ℚ)) ∧
    run_accuracy [] = 0 ∧ run_avg_duration [] = 0 ∧ run_avg_tool_calls [] = 0 := by
  refine ⟨?_, rfl, rfl, rfl⟩
  intro rs hne
  unfold run_accuracy
  rw [if_neg (fun h => hne (List.isEmpty_iff.mp h))]
  ring

/-- Witness for C6: two tasks, one correct, accuracy 50. -/
theorem run_aggregates_zero_and_formula_witness :
    run_accuracy [⟨1, 0, 0⟩, ⟨0, 0, 0⟩] = 50 := by
  have h := run_aggregates_zero_and_formula.1 [⟨1, 0, 0⟩, ⟨0, 0, 0⟩] (by simp)
  rw [h]
  norm_num

/-- C7: a connection holds at most one live child process; ensuring the
process is running while a live one exists changes nothing and spawns nothing;
when no process exists or the previous one has exited, a process is spawned
with argv = [command] + args and an environment equal to the parent
environment updated with the configured overrides, the override winning on
every key collision. -/
theorem ensure_running_spec (osEnv : String → Option String) (c : StdioConnectionState) :
    liveProcs (ensure_running osEnv c).1 ≤ 1 ∧
    (∀ p, c.proc = some p → p.exited = false →
        (ensure_running osEnv c).1 = c ∧ (ensure_running osEnv c).2 = none) ∧
    ((c.proc = none ∨ ∃ p, c.proc = some p ∧ p.exited = true) →
        (ensure_running osEnv c).1.proc =
            some ⟨c.command :: c.args, mergeEnv osEnv c.env, false⟩ ∧
        (ensure_running osEnv c).2 = some ⟨c.command :: c.args, mergeEnv osEnv c.env⟩ ∧
        ∀ k, (∀ v, envLookup c.env k = some v → mergeEnv osEnv c.env k = some v) ∧
            (envLookup c.env k = none → mergeEnv osEnv c.env k = osEnv k)) := by
  refine ⟨?_, ?_, ?_⟩
  · cases hc : c.proc with
    | none => simp [ensure_running, liveProcs, hc]
    | some p =>
      by_cases hex : p.exited
      · simp [ensure_running, liveProcs, hc, hex]
      · simp [ensure_running, liveProcs, hc, hex]
  · intro p hp hex
    simp [ensure_running, hp, hex]
  · intro hdead
    have hspawn : (ensure_running osEnv c).1.proc =
        some ⟨c.command :: c.args, mergeEnv osEnv c.env, false⟩ ∧
        (ensure_running osEnv c).2 = some ⟨c.command :: c.args, mergeEnv osEnv c.env⟩ := by
      rcases hdead with hnone | ⟨p, hp, hex⟩
      · simp [ensure_running, hnone]
      · simp [ensure_running, hp, hex]
    refine ⟨hspawn.1, hspawn.2, ?_⟩
    intro k
    constructor
    · intro v hv
      simp [mergeEnv, hv]
    · intro hv
      simp [mergeEnv, hv]

/-- Witness for C7 on a connection whose child is live: ensure-running is a
no-op with no spawn. -/
theorem ensure_running_spec_witness :
    (ensure_running (fun _ => none)
        ⟨"cmd", ["a"], [("K", "V")], some ⟨["x"], fun _ => none, false⟩⟩).1 =
      ⟨"cmd", ["a"], [("K", "V")], some ⟨["x"], fun _ => none, false⟩⟩ ∧
    (ensure_running (fun _ => none)
        ⟨"cmd", ["a"], [("K", "V")], some ⟨["x"], fun _ => none, false⟩⟩).2 = none :=
  (ensure_running_spec _ _).2.1 _ rfl rfl

/-- C8: stop() performs no termination action when there is no process or it
has already exited; on a live process that exits within the 5-second grace
period it terminates and waits; on an unresponsive live process it terminates,
waits out the grace period, forcibly kills and waits for exit; it always
returns (the function is total) and afterwards the channel holds no process
handle.  Models both StdioConnection.stop and the identical ToolCaller.stop. -/
theorem stop_termination_semantics (graceful : Bool) (c : StdioConnectionState) :
    (stopChannel graceful c).1.proc = none ∧
    ((c.proc = none ∨ ∃ p, c.proc = some p ∧ p.exited = true) →
        (stopChannel graceful c).2 = []) ∧
    (∀ p, c.proc = some p → p.exited = false → graceful = true →
        (stopChannel graceful c).2 = [TermAction.terminate, TermAction.waitGrace]) ∧
    (∀ p, c.proc = some p → p.exited = false → graceful = false →
        (stopChannel graceful c).2 =
          [TermAction.terminate, TermAction.waitGrace, TermAction.kill,
            TermAction.waitFinal]) := by
  refine ⟨?_, ?_, ?_, ?_⟩
  · cases hc : c.proc with
    | none => simp [stopChannel, hc]
    | some p =>
      by_cases hex : p.exited
      · simp [stopChannel, hc, hex]
      · by_cases hg : graceful <;> simp [stopChannel, hc, hex, hg]
  · intro hdead
    rcases hdead with hnone | ⟨p, hp, hex⟩
    · simp [stopChannel, hnone]
    · simp [stopChannel, hp, hex]
  · intro p hp hex hg
    simp [stopChannel, hp, hex, hg]
  · intro p hp hex hg
    simp [stopChannel, hp, hex, hg]

/-- Witness for C8 on a live unresponsive process: graceful termination, grace
wait, forced kill, final wait, and the handle is dropped. -/
theorem stop_termination_semantics_witness :
    (stopChannel false ⟨"cmd", [], [], some ⟨["x"], fun _ => none, false⟩⟩).2 =
        [TermAction.terminate, TermAction.waitGrace, TermAction.kill,
          TermAction.waitFinal] ∧
    (stopChannel false ⟨"cmd", [], [], some ⟨["x"], fun _ => none, false⟩⟩).1.proc = none :=
  ⟨(stop_termination_semantics false _).2.2.2 _ rfl rfl rfl,
   (stop_termination_semantics false _).1⟩

/-- C10: list_tools and call_tool on the stdio connection first ensure a
running child: after either call the connection holds a live process; when the
channel was dead (never started, or the previous child exited) a fresh process
is spawned with the configured argv and merged environment; when it was live
nothing is spawned; and in both cases the request proceeds to the
request/response exchange — the result is the processed reply, never a
channel-dead failure. -/
theorem stdio_calls_ensure_live_process (osEnv : String → Option String)
    (c : StdioConnectionState) (reply : Json) :
    hasLiveProc (stdio_call_tool osEnv c reply).1 = true ∧
    hasLiveProc (stdio_list_tools osEnv c reply).1 = true ∧
    (hasLiveProc c = false →
        (stdio_call_tool osEnv c reply).2.1 =
          some ⟨c.command :: c.args, mergeEnv osEnv c.env⟩) ∧
    (hasLiveProc c = true →
        (stdio_call_tool osEnv c reply).1 = c ∧
        (stdio_call_tool osEnv c reply).2.1 = none) ∧
    (stdio_call_tool osEnv c reply).2.2 = stdio_call_tool_reply reply ∧
    (stdio_call_tool osEnv c reply).2.2 ≠ Except.error CallFailure.notRunning ∧
    (stdio_list_tools osEnv c reply).2.2 = reply := by
  have hlive : hasLiveProc (ensure_running osEnv c).1 = true := by
    cases hc : c.proc with
    | none => simp [ensure_running, hasLiveProc, hc]
    | some p =>
      by_cases hex : p.exited
      · simp [ensure_running, hasLiveProc, hc, hex]
      · simp [ensure_running, hasLiveProc, hc, hex]
  have hnr : stdio_call_tool_reply reply ≠ Except.error CallFailure.notRunning := by
    cases reply with
    | obj fs =>
      unfold stdio_call_tool_reply
      cases hek : objLookup fs "error" <;> simp [hek]
    | null => simp [stdio_call_tool_reply]
    | bool b => simp [stdio_call_tool_reply]
    | num n => simp [stdio_call_tool_reply]
    | str s => simp [stdio_call_tool_reply]
    | arr es => simp [stdio_call_tool_reply]
  refine ⟨hlive, hlive, ?_, ?_, rfl, hnr, rfl⟩
  · intro hdead
    cases hc : c.proc with
    | none => simp [stdio_call_tool, ensure_running, hc]
    | some p =>
      by_cases hex : p.exited
      · simp [stdio_call_tool, ensure_running, hc, hex]
      · simp [hasLiveProc, hc, hex] at hdead
  · intro hl
    cases hc : c.proc with
    | none => simp [hasLiveProc, hc] at hl
    | some p =>
      by_cases hex : p.exited
      · simp [hasLiveProc, hc, hex] at hl
      · constructor <;> simp [stdio_call_tool, ensure_running, hc, hex]

/-- Witness for C10 on a never-started channel: the call transparently spawns
a fresh child and reaches the exchange. -/
theorem stdio_calls_ensure_live_process_witness :
    (stdio_call_tool (fun _ => some "E") ⟨"srv", ["arg"], [], none⟩ (Json.str "ok")).2.1 =
        some ⟨"srv" :: ["arg"], mergeEnv (fun _ => some "E") []⟩ ∧
    hasLiveProc
        (stdio_call_tool (fun _ => some "E") ⟨"srv", ["arg"], [], none⟩ (Json.str "ok")).1 =
      true :=
  ⟨(stdio_calls_ensure_live_process _ _ _).2.2.1 rfl,
   (stdio_calls_ensure_live_process _ _ _).1⟩

/-- One-step unfolding of the loop body (definitionally equal to the
generated unfolding equation). -/
theorem agentLoop_unfold (call : String → Json → Except String Json) (tb : String)
    (resp : EngineResponse) (script : List EngineResponse) (st : LoopState) :
    agentLoop call tb resp script st =
      if resp.stopReason = "tool_use" then
        match firstToolUse resp.content with
        | none => AgentResult.malformed st.messages st.metrics
        | some (id, name, input) =>
          match script with
          | [] =>
            AgentResult.outOfScript
              (st.messages ++
                [toolResultMessage id (toolResponseString call tb name input)])
              (updateMetrics st.metrics name (st.durs.headD 0))
          | r :: rs =>
            agentLoop call tb r rs
              ⟨st.messages ++
                  [toolResultMessage id (toolResponseString call tb name input)] ++
                  [assistantMessage r.content],
                updateMetrics st.metrics name (st.durs.headD 0), st.durs.tail⟩
      else AgentResult.finished (extractFinalText resp.content) st.messages st.metrics := by
  exact agentLoop.eq_def call tb resp script st

/-- Unfolding a loop turn whose response requests a tool: the first tool_use
block is invoked, one correlated tool-result message is appended, the metrics
entry for the tool is bumped once, and the loop proceeds with the next
scripted response (or stops when the script is exhausted). -/
theorem agentLoop_step (call : String → Json → Except String Json) (tb : String)
    (resp : EngineResponse) (script : List EngineResponse) (st : LoopState)
    (id name : String) (input : Json)
    (h1 : resp.stopReason = "tool_use")
    (h2 : firstToolUse resp.content = some (id, name, input)) :
    agentLoop call tb resp script st =
      match script with
      | [] =>
        AgentResult.outOfScript
          (st.messages ++ [toolResultMessage id (toolResponseString call tb name input)])
          (updateMetrics st.metrics name (st.durs.headD 0))
      | r :: rs =>
        agentLoop call tb r rs
          ⟨st.messages ++ [toolResultMessage id (toolResponseString call tb name input)] ++
              [assistantMessage r.content],
            updateMetrics st.metrics name (st.durs.headD 0), st.durs.tail⟩ := by
  rw [agentLoop_unfold, h1, h2, if_pos rfl]

/-- Unfolding a loop turn whose response does not request a tool: the loop
finishes with the first text block's text. -/
theorem agentLoop_finish (call : String → Json → Except String Json) (tb : String)
    (resp : EngineResponse) (script : List EngineResponse) (st : LoopState)
    (h1 : ¬ resp.stopReason = "tool_use") :
    agentLoop call tb resp script st =
      AgentResult.finished (extractFinalText resp.content) st.messages st.metrics := by
  rw [agentLoop_unfold, if_neg h1]

/-- Unfolding a loop turn whose response claims tool_use but has no tool_use
block: the StopIteration case. -/
theorem agentLoop_malformed (call : String → Json → Except String Json) (tb : String)
    (resp : EngineResponse) (script : List EngineResponse) (st : LoopState)
    (h1 : resp.stopReason = "tool_use")
    (h2 : firstToolUse resp.content = none) :
    agentLoop call tb resp script st = AgentResult.malformed st.messages st.metrics := by
  rw [agentLoop_unfold, h1, h2, if_pos rfl]

/-- The first tool_use block of a content list that starts with non tool_use
blocks is the marked one, whatever follows it. -/
theorem firstToolUse_append_of_no_tool_use (pre : List ContentBlock) (id name : String)
    (input : Json) (post : List ContentBlock)
    (hpre : ∀ b ∈ pre, b.isToolUse = false) :
    firstToolUse (pre ++ ContentBlock.toolUse id name input :: post) =
      some (id, name, input) := by
  induction pre with
  | nil => rfl
  | cons b rest ih =>
    have hb := hpre b (by simp)
    have hrest : ∀ x ∈ rest, x.isToolUse = false := fun x hx => hpre x (by simp [hx])
    cases b with
    | text t => simpa [firstToolUse] using ih hrest
    | toolUse i n inp => simp [ContentBlock.isToolUse] at hb
    | toolResult i ct => simpa [firstToolUse] using ih hrest

/-- C4: in every turn of agent_loop, a failing tool invocation is recovered
locally: the failure text (message plus stack trace) becomes the tool-result
content appended to the conversation and the loop simply continues with the
next engine response; moreover which way the loop terminates never depends on
the tool caller or on its results, so no tool-invocation error propagates out
of the loop. -/
theorem agent_loop_recovers_tool_errors :
    (∀ (call : String → Json → Except String Json) (tb id name : String) (input : Json)
        (e : String) (resp : EngineResponse) (script : List EngineResponse) (st : LoopState),
        resp.stopReason = "tool_use" →
        firstToolUse resp.content = some (id, name, input) →
        call name input = Except.error e →
        agentLoop call tb resp script st =
          match script with
          | [] =>
            AgentResult.outOfScript
              (st.messages ++ [toolResultMessage id (errText name e tb)])
              (updateMetrics st.metrics name (st.durs.headD 0))
          | r :: rs =>
            agentLoop call tb r rs
              ⟨st.messages ++ [toolResultMessage id (errText name e tb)] ++
                  [assistantMessage r.content],
                updateMetrics st.metrics name (st.durs.headD 0), st.durs.tail⟩) ∧
    (∀ (call₁ call₂ : String → Json → Except String Json) (tb₁ tb₂ : String)
        (resp : EngineResponse) (script : List EngineResponse) (st₁ st₂ : LoopState),
        AgentResult.kind (agentLoop call₁ tb₁ resp script st₁) =
          AgentResult.kind (agentLoop call₂ tb₂ resp script st₂)) := by
  constructor
  · intro call tb id name input e resp script st h1 h2 h3
    have hresp : toolResponseString call tb name input = errText name e tb := by
      unfold toolResponseString
      rw [h3]
    have hstep := agentLoop_step call tb resp script st id name input h1 h2
    rw [hresp] at hstep
    exact hstep
  · intro call₁ call₂ tb₁ tb₂ resp script st₁ st₂
    induction script generalizing resp st₁ st₂ with
    | nil =>
      by_cases h : resp.stopReason = "tool_use"
      · rcases hf : firstToolUse resp.content with _ | ⟨i, n, inp⟩
        · rw [agentLoop_malformed call₁ tb₁ _ _ _ h hf,
            agentLoop_malformed call₂ tb₂ _ _ _ h hf]
          rfl
        · rw [agentLoop_step call₁ tb₁ _ _ _ _ _ _ h hf,
            agentLoop_step call₂ tb₂ _ _ _ _ _ _ h hf]
          rfl
      · rw [agentLoop_finish call₁ tb₁ _ _ _ h, agentLoop_finish call₂ tb₂ _ _ _ h]
        rfl
    | cons r rs ih =>
      by_cases h : resp.stopReason = "tool_use"
      · rcases hf : firstToolUse resp.content with _ | ⟨i, n, inp⟩
        · rw [agentLoop_malformed call₁ tb₁ _ _ _ h hf,
            agentLoop_malformed call₂ tb₂ _ _ _ h hf]
          rfl
        · rw [agentLoop_step call₁ tb₁ _ _ _ _ _ _ h hf,
            agentLoop_step call₂ tb₂ _ _ _ _ _ _ h hf]
          exact ih r _ _
      · rw [agentLoop_finish call₁ tb₁ _ _ _ h, agentLoop_finish call₂ tb₂ _ _ _ h]
        rfl

/-- Witness for C4: a one-turn run whose only tool call fails folds the
failure text into the conversation as a tool-result message and continues
normally. -/
theorem agent_loop_recovers_tool_errors_witness :
    agentLoop (fun _ _ => Except.error "boom") "TB"
        ⟨"tool_use", [ContentBlock.toolUse "id1" "t" Json.null]⟩ [] ⟨[], [], []⟩ =
      AgentResult.outOfScript [toolResultMessage "id1" (errText "t" "boom" "TB")]
        (updateMetrics [] "t" 0) := by
  have h := agent_loop_recovers_tool_errors.1 (fun _ _ => Except.error "boom") "TB"
      "id1" "t" Json.null "boom"
      ⟨"tool_use", [ContentBlock.toolUse "id1" "t" Json.null]⟩ [] ⟨[], [], []⟩ rfl rfl rfl
  simpa using h

/-- C5: in a turn whose engine response has stop reason tool_use, exactly one
tool_use block is taken — the first one in content order, whatever tool_use
blocks follow it — and exactly one tool invocation, one metrics bump and one
tool-result message correlated to that block's id happen before the next
engine response is consumed. -/
theorem agent_loop_single_tool_per_turn
    (call : String → Json → Except String Json) (tb : String)
    (pre post : List ContentBlock) (id name : String) (input : Json)
    (resp r : EngineResponse) (rs : List EngineResponse) (st : LoopState)
    (h1 : resp.stopReason = "tool_use")
    (h2 : resp.content = pre ++ ContentBlock.toolUse id name input :: post)
    (hpre : ∀ b ∈ pre, b.isToolUse = false) :
    agentLoop call tb resp (r :: rs) st =
      agentLoop call tb r rs
        ⟨st.messages ++ [toolResultMessage id (toolResponseString call tb name input)] ++
            [assistantMessage r.content],
          updateMetrics st.metrics name (st.durs.headD 0), st.durs.tail⟩ := by
  have h2' : firstToolUse resp.content = some (id, name, input) := by
    rw [h2]
    exact firstToolUse_append_of_no_tool_use pre id name input post hpre
  exact agentLoop_step call tb resp (r :: rs) st id name input h1 h2'

/-- Witness for C5 on a response containing two tool_use blocks: only the
first is invoked in this turn. -/
theorem agent_loop_single_tool_per_turn_witness :
    agentLoop (fun _ _ => Except.ok (Json.num 3)) "TB"
        ⟨"tool_use", [ContentBlock.text "x", ContentBlock.toolUse "id1" "a" Json.null,
          ContentBlock.toolUse "id2" "b" Json.null]⟩
        [⟨"end_turn", [ContentBlock.text "done"]⟩] ⟨[], [], [1]⟩ =
      agentLoop (fun _ _ => Except.ok (Json.num 3)) "TB"
        ⟨"end_turn", [ContentBlock.text "done"]⟩ []
        ⟨[] ++ [toolResultMessage "id1"
              (toolResponseString (fun _ _ => Except.ok (Json.num 3)) "TB" "a" Json.null)] ++
            [assistantMessage [ContentBlock.text "done"]],
          updateMetrics [] "a" (([1] : List ℚ).headD 0), ([1] : List ℚ).tail⟩ :=
  agent_loop_single_tool_per_turn (fun _ _ => Except.ok (Json.num 3)) "TB"
    [ContentBlock.text "x"] [ContentBlock.toolUse "id2" "b" Json.null] "id1" "a" Json.null
    _ _ _ _ rfl rfl (by decide)

/-- The bump map leaves the metrics unchanged when no entry has the key. -/
theorem map_bump_eq_self (name : String) (d : ℚ) (m : Metrics)
    (h : ∀ p ∈ m, p.1 ≠ name) :
    m.map (fun p =>
        if p.1 = name then (p.1, MetricEntry.mk (p.2.count + 1) (p.2.durations ++ [d]))
        else p) = m := by
  induction m with
  | nil => rfl
  | cons q rest ih =>
    have hq := h q (by simp)
    have hrest : ∀ p ∈ rest, p.1 ≠ name := fun p hp => h p (by simp [hp])
    simp [hq, ih hrest]

/-- Bumping an existing key adds exactly one recorded duration overall. -/
theorem numToolCalls_map_bump (name : String) (d : ℚ) (m : Metrics)
    (hnd : (m.map (fun p => p.1)).Nodup) (hmem : ∃ p ∈ m, p.1 = name) :
    numToolCalls (m.map (fun p =>
        if p.1 = name then (p.1, MetricEntry.mk (p.2.count + 1) (p.2.durations ++ [d]))
        else p)) = numToolCalls m + 1 := by
  induction m with
  | nil => simp at hmem
  | cons q rest ih =>
    rw [List.map_cons, List.nodup_cons] at hnd
    by_cases hq : q.1 = name
    · have hrest : ∀ p ∈ rest, p.1 ≠ name := by
        intro p hp hpn
        exact hnd.1 (by
          rw [← hq] at hpn
          exact hpn ▸ List.mem_map_of_mem (fun r => r.1) hp)
      rw [List.map_cons, if_pos hq, map_bump_eq_self name d rest hrest]
      simp [numToolCalls, List.length_append]
      omega
    · rcases hmem with ⟨p, hp, hpn⟩
      rcases List.mem_cons.mp hp with rfl | hp'
      · exact absurd hpn hq
      · rw [List.map_cons, if_neg hq]
        simp only [numToolCalls, List.map_cons, List.sum_cons]
        have := ih hnd.2 ⟨p, hp', hpn⟩
        simp only [numToolCalls] at this
        omega

/-- The bump map does not change the key list. -/
theorem map_bump_keys (name : String) (d : ℚ) (m : Metrics) :
    (m.map (fun p =>
        if p.1 = name then (p.1, MetricEntry.mk (p.2.count + 1) (p.2.durations ++ [d]))
        else p)).map (fun p => p.1) = m.map (fun p => p.1) := by
  induction m with
  | nil => rfl
  | cons q rest ih =>
    by_cases hq : q.1 = name <;> simp [hq, ih]

/-- updateMetrics preserves well-formedness of the metrics dictionary. -/
theorem updateMetrics_metricsWF (m : Metrics) (name : String) (d : ℚ)
    (hm : metricsWF m) : metricsWF (updateMetrics m name d) := by
  obtain ⟨hnd, hent⟩ := hm
  unfold updateMetrics
  by_cases hany : m.any (fun p => p.1 = name)
  · rw [if_pos hany]
    constructor
    · rw [map_bump_keys]
      exact hnd
    · intro p hp
      rcases List.mem_map.mp hp with ⟨q, hq, rfl⟩
      by_cases hqn : q.1 = name
      · have hwf := hent q hq
        simp [hqn, List.length_append]
        omega
      · simp only [if_neg hqn]
        exact hent q hq
  · rw [if_neg hany]
    constructor
    · rw [List.map_append]
      rw [List.nodup_append]
      refine ⟨hnd, List.nodup_singleton _, ?_⟩
      intro k hk hbad
      simp at hbad
      rcases List.mem_map.mp hk with ⟨p, hp, rfl⟩
      rw [List.any_eq_true] at hany
      exact hany ⟨p, hp, by simp [hbad]⟩
    · intro p hp
      rcases List.mem_append.mp hp with h | h
      · exact hent p h
      · simp at h
        subst h
        simp

/-- updateMetrics increases the total recorded durations by exactly one. -/
theorem updateMetrics_numToolCalls (m : Metrics) (name : String) (d : ℚ)
    (hnd : (m.map (fun p => p.1)).Nodup) :
    numToolCalls (updateMetrics m name d) = numToolCalls m + 1 := by
  unfold updateMetrics
  by_cases hany : m.any (fun p => p.1 = name)
  · rw [if_pos hany]
    rw [List.any_eq_true] at hany
    rcases hany with ⟨p, hp, hpn⟩
    exact numToolCalls_map_bump name d m hnd ⟨p, hp, by simpa using hpn⟩
  · rw [if_neg hany]
    simp [numToolCalls, List.map_append]

/-- Entry-wise count = durations length gives equal totals. -/
theorem sumCounts_eq_of_entries (m : Metrics)
    (h : ∀ p ∈ m, p.2.count = p.2.durations.length) : sumCounts m = numToolCalls m := by
  induction m with
  | nil => rfl
  | cons q rest ih =>
    have hq := h q (by simp)
    have hrest : ∀ p ∈ rest, p.2.count = p.2.durations.length :=
      fun p hp => h p (by simp [hp])
    simp only [sumCounts, numToolCalls, List.map_cons, List.sum_cons] at *
    rw [hq, ih hrest]

/-- Every iteration of the loop preserves metrics well-formedness, whether or
not the tool invocation failed. -/
theorem agentLoop_metricsWF (call : String → Json → Except String Json) (tb : String) :
    ∀ (script : List EngineResponse) (resp : EngineResponse) (st : LoopState),
      metricsWF st.metrics →
      metricsWF (AgentResult.metricsOf (agentLoop call tb resp script st)) := by
  intro script
  induction script with
  | nil =>
    intro resp st hst
    by_cases h : resp.stopReason = "tool_use"
    · rcases hf : firstToolUse resp.content with _ | ⟨i, n, inp⟩
      · rw [agentLoop_malformed call tb _ _ _ h hf]
        exact hst
      · rw [agentLoop_step call tb _ _ _ _ _ _ h hf]
        exact updateMetrics_metricsWF _ _ _ hst
    · rw [agentLoop_finish call tb _ _ _ h]
      exact hst
  | cons r rs ih =>
    intro resp st hst
    by_cases h : resp.stopReason = "tool_use"
    · rcases hf : firstToolUse resp.content with _ | ⟨i, n, inp⟩
      · rw [agentLoop_malformed call tb _ _ _ h hf]
        exact hst
      · rw [agentLoop_step call tb _ _ _ _ _ _ h hf]
        exact ih r _ (updateMetrics_metricsWF _ _ _ hst)
    · rw [agentLoop_finish call tb _ _ _ h]
      exact hst

/-- C9: in the metrics of the agent loop, every recorded tool's count equals
the length of its durations list and is at least one; one iteration adds
exactly one recorded duration (also when the invocation failed, since the
update is unconditional); the task's num_tool_calls — the sum of the
durations lengths — therefore equals the sum of the counts; and the whole
loop preserves the invariant from any well-formed starting metrics. -/
theorem tool_metrics_invariant :
    (∀ (m : Metrics) (name : String) (d : ℚ), metricsWF m →
        metricsWF (updateMetrics m name d) ∧
          numToolCalls (updateMetrics m name d) = numToolCalls m + 1) ∧
    (∀ m : Metrics, metricsWF m → sumCounts m = numToolCalls m) ∧
    (∀ (call : String → Json → Except String Json) (tb : String)
        (resp : EngineResponse) (script : List EngineResponse) (st : LoopState),
        metricsWF st.metrics →
        metricsWF (AgentResult.metricsOf (agentLoop call tb resp script st))) := by
  refine ⟨?_, ?_, ?_⟩
  · intro m name d hm
    exact ⟨updateMetrics_metricsWF m name d hm,
      updateMetrics_numToolCalls m name d hm.1⟩
  · intro m hm
    exact sumCounts_eq_of_entries m (fun p hp => (hm.2 p hp).1)
  · intro call tb resp script st h
    exact agentLoop_metricsWF call tb script resp st h

/-- Witness for C9 on the empty metrics dictionary. -/
theorem tool_metrics_invariant_witness :
    metricsWF (updateMetrics [] "t" 1) ∧ numToolCalls (updateMetrics [] "t" 1) = 1 := by
  have h := tool_metrics_invariant.1 [] "t" 1
      ⟨List.nodup_nil, fun p hp => absurd hp (List.not_mem_nil p)⟩
  exact ⟨h.1, by simpa using h.2⟩

/-- A pattern starts the text exactly when the text extends it. -/
theorem listStartsWith_iff (p : List Char) : ∀ t : List Char,
    listStartsWith p t = true ↔ ∃ r, t = p ++ r := by
  induction p with
  | nil =>
    intro t
    simp [listStartsWith]
  | cons x xs ih =>
    intro t
    cases t with
    | nil => simp [listStartsWith]
    | cons y ys =>
      simp only [listStartsWith, Bool.and_eq_true, beq_iff_eq]
      constructor
      · rintro ⟨rfl, h⟩
        rcases (ih ys).mp h with ⟨r, rfl⟩
        exact ⟨r, rfl⟩
      · rintro ⟨r, hr⟩
        rw [List.cons_append] at hr
        injection hr with h1 h2
        exact ⟨h1.symm, (ih ys).mpr ⟨r, h2⟩⟩

/-- splitFirst soundness: a successful split decomposes the text. -/
theorem splitFirst_sound (pat : List Char) : ∀ t b a : List Char,
    splitFirst pat t = some (b, a) → t = b ++ pat ++ a := by
  intro t
  induction t with
  | nil =>
    intro b a h
    rw [splitFirst] at h
    by_cases hs : listStartsWith pat [] = true
    · rw [if_pos hs] at h
      simp only [Option.some.injEq, Prod.mk.injEq] at h
      obtain ⟨hb, ha⟩ := h
      obtain ⟨r, hr⟩ := (listStartsWith_iff pat []).mp hs
      have hpat : pat = [] := (List.append_eq_nil.mp hr.symm).1
      simp [← hb, ← ha, hpat]
    · rw [if_neg hs] at h
      cases h
  | cons c rest ih =>
    intro b a h
    rw [splitFirst] at h
    by_cases hs : listStartsWith pat (c :: rest) = true
    · rw [if_pos hs] at h
      simp only [Option.some.injEq, Prod.mk.injEq] at h
      obtain ⟨hb, ha⟩ := h
      obtain ⟨r, hr⟩ := (listStartsWith_iff pat (c :: rest)).mp hs
      subst hb
      subst ha
      rw [hr]
      simp [List.drop_left]
    · rw [if_neg hs] at h
      cases hrec : splitFirst pat rest with
      | none =>
        rw [hrec] at h
        cases h
      | some p =>
        obtain ⟨pb, pa⟩ := p
        rw [hrec] at h
        simp only [Option.some.injEq, Prod.mk.injEq] at h
        obtain ⟨hb, ha⟩ := h
        subst hb
        subst ha
        have := ih pb pa hrec
        simp [this]

/-- splitFirst completeness: when the pattern occurs, the split succeeds. -/
theorem splitFirst_isSome_of (pat : List Char) : ∀ t b a : List Char,
    t = b ++ pat ++ a → (splitFirst pat t).isSome = true := by
  intro t
  induction t with
  | nil =>
    intro b a h
    obtain ⟨h1, h2⟩ := List.append_eq_nil.mp h.symm
    obtain ⟨h3, h4⟩ := List.append_eq_nil.mp h1
    subst h4
    simp [splitFirst, listStartsWith]
  | cons c rest ih =>
    intro b a h
    rw [splitFirst]
    by_cases hs : listStartsWith pat (c :: rest) = true
    · rw [if_pos hs]
      rfl
    · rw [if_neg hs]
      cases b with
      | nil =>
        exact absurd ((listStartsWith_iff pat (c :: rest)).mpr ⟨a, by simpa using h⟩) hs
      | cons b0 bs =>
        rw [List.cons_append, List.cons_append] at h
        injection h with h1 h2
        have := ih bs a (by simpa using h2)
        cases hrec : splitFirst pat rest with
        | none =>
          rw [hrec] at this
          simp at this
        | some p =>
          obtain ⟨pb, pa⟩ := p
          rfl

/-- splitFirst minimality: the returned occurrence is the leftmost one. -/
theorem splitFirst_min (pat : List Char) : ∀ t b a : List Char,
    splitFirst pat t = some (b, a) →
    ∀ b2 a2 : List Char, t = b2 ++ pat ++ a2 → b.length ≤ b2.length := by
  intro t
  induction t with
  | nil =>
    intro b a h b2 a2 _
    have hsd := splitFirst_sound pat [] b a h
    obtain ⟨h1, _⟩ := List.append_eq_nil.mp hsd.symm
    obtain ⟨hb, _⟩ := List.append_eq_nil.mp h1
    simp [hb]
  | cons c rest ih =>
    intro b a h b2 a2 h2
    rw [splitFirst] at h
    by_cases hs : listStartsWith pat (c :: rest) = true
    · rw [if_pos hs] at h
      simp only [Option.some.injEq, Prod.mk.injEq] at h
      obtain ⟨hb, _⟩ := h
      simp [← hb]
    · rw [if_neg hs] at h
      cases b2 with
      | nil =>
        exact absurd ((listStartsWith_iff pat (c :: rest)).mpr ⟨a2, by simpa using h2⟩) hs
      | cons c2 bs2 =>
        cases hrec : splitFirst pat rest with
        | none =>
          rw [hrec] at h
          cases h
        | some p =>
          obtain ⟨pb, pa⟩ := p
          rw [hrec] at h
          simp only [Option.some.injEq, Prod.mk.injEq] at h
          obtain ⟨hb, _⟩ := h
          rw [List.cons_append, List.cons_append] at h2
          injection h2 with _ h2'
          have := ih pb pa hrec bs2 a2 (by simpa using h2')
          rw [← hb]
          simp only [List.length_cons]
          omega

/-- A successful split on a non-empty pattern strictly shortens the text. -/
theorem splitFirst_cons_length (q : Char) (ps t b a : List Char)
    (h : splitFirst (q :: ps) t = some (b, a)) : a.length < t.length := by
  have hsd := splitFirst_sound (q :: ps) t b a h
  rw [hsd]
  simp [List.length_append]
  omega

/-- The fuel argument of tagMatchesFuel is irrelevant once it covers the text
length. -/
theorem tagMatchesFuel_congr (tag : String) : ∀ (f1 f2 : Nat) (text : List Char),
    text.length ≤ f1 → text.length ≤ f2 →
    tagMatchesFuel tag f1 text = tagMatchesFuel tag f2 text := by
  intro f1
  induction f1 with
  | zero =>
    intro f2 text h1 _
    have htext : text = [] := List.length_eq_zero.mp (Nat.le_zero.mp h1)
    subst htext
    cases f2 with
    | zero => rfl
    | succ f2' => simp [tagMatchesFuel, splitFirst, openTagChars, listStartsWith]
  | succ f1' ih =>
    intro f2 text h1 h2
    cases f2 with
    | zero =>
      have htext : text = [] := List.length_eq_zero.mp (Nat.le_zero.mp h2)
      subst htext
      simp [tagMatchesFuel, splitFirst, openTagChars, listStartsWith]
    | succ f2' =>
      cases hsp1 : splitFirst (openTagChars tag) text with
      | none => simp [tagMatchesFuel, hsp1]
      | some p1 =>
        obtain ⟨b1, a1⟩ := p1
        cases hsp2 : splitFirst (closeTagChars tag) a1 with
        | none => simp [tagMatchesFuel, hsp1, hsp2]
        | some p2 =>
          obtain ⟨m2, a2⟩ := p2
          simp only [tagMatchesFuel, hsp1, hsp2]
          have l1 : a1.length < text.length :=
            splitFirst_cons_length '<' (tag.data ++ ['>']) text b1 a1 hsp1
          have l2 : a2.length < a1.length :=
            splitFirst_cons_length '<' ('/' :: (tag.data ++ ['>'])) a1 m2 a2 hsp2
          congr 1
          exact ih f2' a2 (by omega) (by omega)

/-- The one-step unfolding of the findall scan. -/
theorem tagMatches_eq (tag : String) (text : List Char) :
    tagMatches tag text =
      match splitFirst (openTagChars tag) text with
      | none => []
      | some p1 =>
        match splitFirst (closeTagChars tag) p1.2 with
        | none => []
        | some p2 => p2.1 :: tagMatches tag p2.2 := by
  cases text with
  | nil => simp [tagMatches, tagMatchesFuel, splitFirst, openTagChars, listStartsWith]
  | cons c rest =>
    cases hsp1 : splitFirst (openTagChars tag) (c :: rest) with
    | none => simp [tagMatches, List.length_cons, tagMatchesFuel, hsp1]
    | some p1 =>
      obtain ⟨b1, a1⟩ := p1
      cases hsp2 : splitFirst (closeTagChars tag) a1 with
      | none => simp [tagMatches, List.length_cons, tagMatchesFuel, hsp1, hsp2]
      | some p2 =>
        obtain ⟨m2, a2⟩ := p2
        simp only [tagMatches, List.length_cons, tagMatchesFuel, hsp1, hsp2]
        congr 1
        have l1 : a1.length < (c :: rest).length :=
          splitFirst_cons_length '<' (tag.data ++ ['>']) (c :: rest) b1 a1 hsp1
        have l2 : a2.length < a1.length :=
          splitFirst_cons_length '<' ('/' :: (tag.data ++ ['>'])) a1 m2 a2 hsp2
        simp only [List.length_cons] at l1
        exact tagMatchesFuel_congr tag rest.length a2.length a2 (by omega) (by omega)

/-- Splitting at a delimiter that starts with a character absent from the
prefix finds exactly the written occurrence. -/
theorem splitFirst_marker (p y : List Char) : ∀ x : List Char, (∀ c ∈ x, c ≠ '<') →
    splitFirst ('<' :: p) (x ++ '<' :: p ++ y) = some (x, y) := by
  intro x
  induction x with
  | nil =>
    intro _
    simp only [List.nil_append, List.cons_append]
    have hs : listStartsWith ('<' :: p) ('<' :: (p ++ y)) = true := by
      apply (listStartsWith_iff _ _).mpr
      exact ⟨y, by simp⟩
    rw [splitFirst, if_pos hs]
    simp [List.length_cons, List.drop_succ_cons, List.drop_left]
  | cons a x' ih =>
    intro hx
    have ha : a ≠ '<' := hx a (by simp)
    have hx' : ∀ c ∈ x', c ≠ '<' := fun c hc => hx c (by simp [hc])
    simp only [List.cons_append]
    have hns : listStartsWith ('<' :: p) (a :: (x' ++ '<' :: (p ++ y))) = false := by
      by_cases hb : ('<' : Char) = a
      · exact absurd hb.symm ha
      · simp [listStartsWith, hb]
    rw [splitFirst, if_neg (by simp [hns])]
    have := ih hx'
    simp only [List.cons_append] at this
    rw [this]

/-- The scan finds no match exactly when the text has no opening delimiter
followed by a closing delimiter. -/
theorem tagMatches_nil_iff (tag : String) (text : List Char) :
    tagMatches tag text = [] ↔
      ¬ ∃ b m a : List Char,
          text = b ++ openTagChars tag ++ m ++ closeTagChars tag ++ a := by
  rw [tagMatches_eq]
  cases hsp1 : splitFirst (openTagChars tag) text with
  | none =>
    constructor
    · rintro _ ⟨b, m, a, hd⟩
      have hocc : (splitFirst (openTagChars tag) text).isSome = true :=
        splitFirst_isSome_of (openTagChars tag) text b
          (m ++ closeTagChars tag ++ a) (by simp [hd, List.append_assoc])
      rw [hsp1] at hocc
      simp at hocc
    · intro _
      rfl
  | some p1 =>
    obtain ⟨b1, a1⟩ := p1
    have hsound1 : text = b1 ++ openTagChars tag ++ a1 :=
      splitFirst_sound _ _ _ _ hsp1
    cases hsp2 : splitFirst (closeTagChars tag) a1 with
    | none =>
      constructor
      · rintro _ ⟨b, m, a, hd⟩
        have hmin := splitFirst_min (openTagChars tag) text b1 a1 hsp1 b
          (m ++ closeTagChars tag ++ a) (by simp [hd, List.append_assoc])
        have hOlen : text.drop ((b1 ++ openTagChars tag).length) = a1 := by
          rw [hsound1]
          exact List.drop_left _ _
        have hKlen : text.drop ((b ++ openTagChars tag).length) =
            m ++ closeTagChars tag ++ a := by
          have hd' : text = (b ++ openTagChars tag) ++ (m ++ closeTagChars tag ++ a) := by
            simp [hd, List.append_assoc]
          rw [hd']
          exact List.drop_left _ _
        have hdrop : a1.drop (b.length - b1.length) = m ++ closeTagChars tag ++ a := by
          rw [← hOlen, List.drop_drop]
          rw [show (b1 ++ openTagChars tag).length + (b.length - b1.length) =
              (b ++ openTagChars tag).length from by
            simp [List.length_append]
            omega]
          exact hKlen
        have ha1split : a1 = (a1.take (b.length - b1.length) ++ m) ++
            closeTagChars tag ++ a := by
          conv_lhs => rw [← List.take_append_drop (b.length - b1.length) a1]
          rw [hdrop]
          simp [List.append_assoc]
        have hocc : (splitFirst (closeTagChars tag) a1).isSome = true :=
          splitFirst_isSome_of _ a1 (a1.take (b.length - b1.length) ++ m) a ha1split
        rw [hsp2] at hocc
        simp at hocc
      · intro _
        simp only [hsp2]
    | some p2 =>
      obtain ⟨m2, a2⟩ := p2
      have hsound2 : a1 = m2 ++ closeTagChars tag ++ a2 :=
        splitFirst_sound _ _ _ _ hsp2
      constructor
      · intro hcontra
        simp [hsp2] at hcontra
      · intro hnex
        exact absurd ⟨b1, m2, a2, by simp [hsound1, hsound2, List.append_assoc]⟩ hnex

/-- C3: extraction returns no match exactly when the text contains no full
delimited occurrence of the tag; and when occurrences are present the content
of the last one, trimmed of outer whitespace, is returned (never an empty
string standing in for absence). -/
theorem extract_xml_content_last_and_absent (tag : String) :
    (∀ text : String,
        extract_xml_content text tag = none ↔
          ¬ ∃ b m a : List Char,
              text.data = b ++ openTagChars tag ++ m ++ closeTagChars tag ++ a) ∧
    (∀ c1 c2 : List Char, (∀ ch ∈ c1, ch ≠ '<') → (∀ ch ∈ c2, ch ≠ '<') →
        extract_xml_content
            (String.mk (openTagChars tag ++ c1 ++ closeTagChars tag ++
              openTagChars tag ++ c2 ++ closeTagChars tag)) tag =
          some (String.mk (pyStrip c2))) := by
  constructor
  · intro text
    unfold extract_xml_content
    rw [Option.map_eq_none', List.getLast?_eq_none_iff]
    exact tagMatches_nil_iff tag text.data
  · intro c1 c2 h1 h2
    have s4 : splitFirst (closeTagChars tag) (c2 ++ closeTagChars tag) =
        some (c2, []) := by
      have := splitFirst_marker ('/' :: (tag.data ++ ['>'])) [] c2 h2
      simpa [closeTagChars] using this
    have s3 : splitFirst (openTagChars tag)
        (openTagChars tag ++ (c2 ++ closeTagChars tag)) =
        some ([], c2 ++ closeTagChars tag) := by
      have := splitFirst_marker (tag.data ++ ['>']) (c2 ++ closeTagChars tag) []
        (by simp)
      simpa [openTagChars] using this
    have hm1 : tagMatches tag (openTagChars tag ++ (c2 ++ closeTagChars tag)) =
        [c2] := by
      rw [tagMatches_eq]
      simp only [s3, s4]
      rfl
    have s2 : splitFirst (closeTagChars tag)
        (c1 ++ (closeTagChars tag ++ (openTagChars tag ++ (c2 ++ closeTagChars tag)))) =
        some (c1, openTagChars tag ++ (c2 ++ closeTagChars tag)) := by
      have := splitFirst_marker ('/' :: (tag.data ++ ['>']))
        (openTagChars tag ++ (c2 ++ closeTagChars tag)) c1 h1
      simpa [closeTagChars, List.append_assoc] using this
    have s1 : splitFirst (openTagChars tag)
        (openTagChars tag ++ (c1 ++ (closeTagChars tag ++
          (openTagChars tag ++ (c2 ++ closeTagChars tag))))) =
        some ([], c1 ++ (closeTagChars tag ++
          (openTagChars tag ++ (c2 ++ closeTagChars tag)))) := by
      have := splitFirst_marker (tag.data ++ ['>'])
        (c1 ++ (closeTagChars tag ++ (openTagChars tag ++ (c2 ++ closeTagChars tag)))) []
        (by simp)
      simpa [openTagChars] using this
    have e1 : tagMatches tag (openTagChars tag ++ (c1 ++ (closeTagChars tag ++
        (openTagChars tag ++ (c2 ++ closeTagChars tag))))) = [c1, c2] := by
      rw [tagMatches_eq]
      simp only [s1, s2]
      rw [hm1]
    unfold extract_xml_content
    have hdata : (String.mk (openTagChars tag ++ c1 ++ closeTagChars tag ++
        openTagChars tag ++ c2 ++ closeTagChars tag)).data =
        openTagChars tag ++ (c1 ++ (closeTagChars tag ++
          (openTagChars tag ++ (c2 ++ closeTagChars tag)))) := by
      show openTagChars tag ++ c1 ++ closeTagChars tag ++
        openTagChars tag ++ c2 ++ closeTagChars tag = _
      simp [List.append_assoc]
    rw [hdata, e1]
    rfl

/-- Witness for C3 on a text with two occurrences of the tag: the second,
whitespace-trimmed content is returned. -/
theorem extract_xml_content_last_and_absent_witness :
    extract_xml_content
        (String.mk (openTagChars "r" ++ "one".data ++ closeTagChars "r" ++
          openTagChars "r" ++ " two ".data ++ closeTagChars "r")) "r" =
      some (String.mk (pyStrip " two ".data)) :=
  (extract_xml_content_last_and_absent "r").2 "one".data " two ".data
    (by decide) (by decide)
